import Mathlib

set_option linter.unusedVariables false

/-!
Shallow embedding of `src/App.py` (a FastAPI retrieval-augmented QA service).

Pure string manipulation (`format_response`, the regex substitution
`re.sub(r"(Context:.*|Answer:)", "", response, flags=re.IGNORECASE)`,
`str.strip`, the prompt template) is translated into executable Lean
functions on `List Char` / `String`.  The stateful pipeline
(`process_documents`, the global `retrieval_qa_chain`, `ask_question`)
becomes explicit state passing.  External collaborators (PyPDF2 extraction,
`requests.get`, the embedding model, FAISS, the LLM chain) are modelled as
explicit outcome parameters: each external call is represented by the
`Except` value it produces, matching the Python code's try/except structure.
-/

namespace App

/-- Python `str.strip()` whitespace class, restricted to the ASCII whitespace
characters Python strips (space, tab, LF, CR, vertical tab, form feed). -/
def isWs (c : Char) : Bool :=
  c == ' ' || c == '\t' || c == '\n' || c == '\r' || c == '\x0b' || c == '\x0c'

/-- Python `str.strip()` on a character list: drop whitespace from both ends. -/
def pyStripL (l : List Char) : List Char :=
  ((l.dropWhile isWs).reverse.dropWhile isWs).reverse

/-- Python `str.strip()` on a string. -/
def pyStrip (s : String) : String :=
  String.mk (pyStripL s.data)

/-- Python `"\n".join(status)`. -/
def joinNl (l : List String) : String :=
  String.intercalate "\n" l

/-- Python `status[-1]`: the last element of the status list (the source only
evaluates it on non-empty lists, so the default is never observed). -/
def lastD (l : List String) : String :=
  l.getLastD ""

/-- Case-insensitive prefix test: does `s` start with the (already lowercase)
pattern `pat`?  Models Python regex literal matching under `re.IGNORECASE`. -/
def ciPrefixL : List Char → List Char → Bool
  | [], _ => true
  | _ :: _, [] => false
  | p :: ps, c :: cs => (c.toLower == p) && ciPrefixL ps cs

/-- The literal of the first regex alternative `Context:` (lowercased). -/
def ctxPat : List Char := "context:".data

/-- The literal of the second regex alternative `Answer:` (lowercased). -/
def ansPat : List Char := "answer:".data

/-- Does some position of `l` start a case-insensitive occurrence of `pat`? -/
def containsCIL (pat : List Char) : List Char → Bool
  | [] => ciPrefixL pat []
  | c :: cs => ciPrefixL pat (c :: cs) || containsCIL pat cs

/-- Case-insensitive containment on strings. -/
def containsCI (hay pat : String) : Bool :=
  containsCIL pat.data hay.data

/-- Fuel-driven scanner for `re.sub(r"(Context:.*|Answer:)", "", s, re.I)`:
Python's `re.sub` scans left to right; at each position the alternative
`Context:.*` (which, since `.` does not match a newline, greedily consumes the
rest of the current line) is tried first, then `Answer:`; a match is replaced
by the empty string and scanning resumes after the match; otherwise the
character is kept.  The fuel only makes the recursion structural; one unit of
fuel is spent per step and every step consumes at least one character, so
`fuel = length` never runs out. -/
def reSubFuel : Nat → List Char → List Char
  | 0, s => s
  | _ + 1, [] => []
  | n + 1, c :: cs =>
    if ciPrefixL ctxPat (c :: cs) then
      reSubFuel n (List.dropWhile (fun x => x != '\n') (List.drop 8 (c :: cs)))
    else if ciPrefixL ansPat (c :: cs) then
      reSubFuel n (List.drop 7 (c :: cs))
    else
      c :: reSubFuel n cs

/-- The substitution `re.sub(r"(Context:.*|Answer:)", "", s, flags=re.IGNORECASE)`
on character lists. -/
def reSubAux (s : List Char) : List Char :=
  reSubFuel s.length s

/-- The substitution on strings (line 91 of `src/App.py`). -/
def reSubCtxAns (s : String) : String :=
  String.mk (reSubAux s.data)

/-- Embedding of `format_response(question, response)` (src/App.py lines 89-95):
`response = re.sub(r"(Context:.*|Answer:)", "", response, flags=re.IGNORECASE).strip()`
then `return f"<p>{response}</p>"`.  The Python `except` branch is unreachable
for string inputs, because `re.sub` with this fixed, valid pattern and
`str.strip` are total; the embedding is therefore the total success path.
The `question` argument is unused, exactly as in the source. -/
def format_response (question response : String) : String :=
  "<p>" ++ pyStrip (reSubCtxAns response) ++ "</p>"

/-- Embedding of the `custom_prompt` template (src/App.py lines 43-46):
`"""{question}\n\nContext:\n{context}\n\nAnswer:"""`. -/
def custom_prompt (question context : String) : String :=
  question ++ "\n\nContext:\n" ++ context ++ "\n\nAnswer:"

/-- Exact (case-sensitive) prefix test on character lists. -/
def startsWithL : List Char → List Char → Bool
  | [], _ => true
  | _ :: _, [] => false
  | p :: ps, c :: cs => (c == p) && startsWithL ps cs

/-- Exact (case-sensitive) substring occurrence on character lists. -/
def occursL (pat : List Char) : List Char → Bool
  | [] => startsWithL pat []
  | c :: cs => startsWithL pat (c :: cs) || occursL pat cs

/-- Fuel-driven sliding window with chunk size 500 and stride 400
(= chunkSize - overlap, overlap 100).  Fuel only makes the recursion
structural; each step consumes 400 characters, so `fuel = length` suffices. -/
def chunkFuel : Nat → List Char → List (List Char)
  | 0, t => [t]
  | n + 1, t => if t.length ≤ 500 then [t] else t.take 500 :: chunkFuel n (t.drop 400)

/-- Modelled from the spec: the splitting algorithm behind
`split_text_into_chunks` is langchain's `RecursiveCharacterTextSplitter`
(`chunk_size=500, chunk_overlap=100`), library code that is not part of this
repository.  Following section 4.2 of the spec, chunking is character-unit and
size-bounded with a fixed overlap of 100 between consecutive chunks: chunk `i`
covers characters `[400*i, 400*i + 500)` of the trimmed text, and an input of
at most 500 characters yields exactly one chunk. -/
def chunkWindow (t : List Char) : List (List Char) :=
  chunkFuel t.length t

/-- Modelled from the spec: `split_text_into_chunks(text)`
(src/App.py lines 69-71), with the splitting algorithm itself modelled from
spec section 4.2 (see `chunkWindow`); the text is trimmed and cut into
overlapping 500-character windows with overlap 100. -/
def split_text_into_chunks (text : String) : List String :=
  (chunkWindow (pyStripL text.data)).map (fun l => String.mk l)

/-- Remove from each chunk its 100-character overlapping prefix and
concatenate (used to state the round-trip property). -/
def dropOv (cs : List (List Char)) : List Char :=
  cs.foldr (fun x acc => x.drop 100 ++ acc) []

/-- Reassemble a chunk list: the first chunk whole, every later chunk with its
100-character overlapping prefix removed. -/
def reassembleL : List (List Char) → List Char
  | [] => []
  | c :: rest => c ++ dropOv rest

/-- An uploaded file as `process_documents` sees it: its filename together
with the outcome of `extract_text_from_pdf` on its bytes.  PDF parsing itself
(PyPDF2) is an external collaborator; `extract_text_from_pdf` returns either
the concatenated page text or an `"Error reading PDF: ..."` message
(src/App.py lines 55-66), which is exactly what this field records. -/
structure UpFile where
  filename : String
  extracted : Except String String

/-- A URL ingestion request: the URL together with the outcome of
`requests.get(url, timeout=10)` — either a raised-exception message, or the
HTTP status code paired with the outcome of `extract_text_from_pdf` on the
downloaded bytes. -/
structure UrlReq where
  url : String
  fetch : Except String (Nat × Except String String)

/-- The fixed timeout passed to `requests.get` in `process_documents`
(src/App.py line 115). -/
def downloadTimeoutSeconds : Nat := 10

/-- The QA chain state: the corpus of indexed passage texts it retrieves
over.  `retrieval_qa_chain` in the source wraps a FAISS store built by
`FAISS.from_texts(text_chunks, ...)`, so the chain's corpus is the chunk
list. -/
abbrev Chain : Type := List String

/-- The three fallible stages of the `try` block in `process_documents`:
`split_text_into_chunks`, `create_vectorstore` and `initialize_retrieval_qa`.
Each is an external-library call that may raise; an `Except.error e` models a
raised exception with message `e`. -/
structure Stages where
  chunk : String → Except String (List String)
  vectorstore : List String → Except String (List String)
  initQA : List String → Except String Chain

/-- The `for file in uploaded_files` loop of `process_documents`
(src/App.py lines 105-111): accumulate extracted text, append a status line
per file, and return the extraction error (formatted with the last status
line) as soon as one file fails. -/
def extractLoop : List UpFile → String → List String → Except String (String × List String)
  | [], text, status => Except.ok (text, status)
  | f :: fs, text, status =>
    match f.extracted with
    | Except.error e => Except.error (e ++ "\nStatus: " ++ lastD status)
    | Except.ok t => extractLoop fs (text ++ t) (status ++ ["Processed file: " ++ f.filename])

/-- The extraction half of `process_documents` (src/App.py lines 100-125):
the `if uploaded_files / elif url` branches.  Returns either the early-return
error message or the aggregated text with the status trail so far. -/
def extractPhase (files : List UpFile) (url : Option UrlReq) :
    Except String (String × List String) :=
  match files with
  | _ :: _ => extractLoop files "" ["Processing uploaded files..."]
  | [] =>
    match url with
    | none => Except.ok ("", [])
    | some u =>
      let status := ["Downloading from URL: " ++ u.url]
      match u.fetch with
      | Except.error e =>
          Except.error ("Error downloading from URL: " ++ e ++ "\nStatus: " ++ lastD status)
      | Except.ok (code, ext) =>
          if code ≠ 200 then
            Except.error ("Error: Failed to download (Status " ++ toString code ++ ")\nStatus: "
              ++ lastD status)
          else
            match ext with
            | Except.error e => Except.error (e ++ "\nStatus: " ++ lastD status)
            | Except.ok t => Except.ok (t, status ++ ["Downloaded and processed PDF from URL"])

/-- Embedding of `process_documents` (src/App.py lines 98-140).  The global
`retrieval_qa_chain` becomes the explicit `chain` argument and the second
component of the result; the first component is the returned status string.
After the extraction phase, blank aggregate text short-circuits with the
no-text error; otherwise the three `try`-block stages run in order, each
appending its status line first, and any failure returns
`"Error: ..."` with the trail so far, leaving the chain untouched.  Only
when all stages succeed is the new chain installed. -/
def process_documents (st : Stages) (chain : Option Chain)
    (files : List UpFile) (url : Option UrlReq) : String × Option Chain :=
  match extractPhase files url with
  | Except.error msg => (msg, chain)
  | Except.ok (text, status) =>
    if pyStrip text = "" then
      ("Error: No text found in the documents.\nStatus: " ++ joinNl status, chain)
    else
      let status := status ++ ["Splitting text into chunks..."]
      match st.chunk text with
      | Except.error e => ("Error: " ++ e ++ "\nStatus: " ++ joinNl status, chain)
      | Except.ok chunks =>
        let status := status ++ ["Creating vectorstore..."]
        match st.vectorstore chunks with
        | Except.error e => ("Error: " ++ e ++ "\nStatus: " ++ joinNl status, chain)
        | Except.ok vs =>
          let status := status ++ ["Initializing QA chain..."]
          match st.initQA vs with
          | Except.error e => ("Error: " ++ e ++ "\nStatus: " ++ joinNl status, chain)
          | Except.ok ch =>
              ("Documents processed successfully. Ask your questions!\nStatus: "
                ++ joinNl status, some ch)

/-- Embedding of the `ask_question` endpoint (src/App.py lines 143-153).
`run` models `retrieval_qa_chain.run({"query": question})`, an external LLM
call that may raise.  `Except.error (code, detail)` models
`HTTPException(status_code=code, detail=detail)`; `Except.ok` carries the
`{"response": ...}` payload. -/
def ask_question (chain : Option Chain) (run : Chain → String → Except String String)
    (question : String) : Except (Nat × String) String :=
  match chain with
  | none => Except.error (400, "Documents have not been processed yet.")
  | some ch =>
    match run ch question with
    | Except.error e => Except.error (500, "Error: " ++ e)
    | Except.ok response => Except.ok (format_response question response)

/-- Concrete instantiation of the stages in which the library calls succeed
and the chain stores exactly the chunk list (used for witnesses and
counterexamples). -/
def idStages : Stages :=
  ⟨fun t => Except.ok (split_text_into_chunks t), fun c => Except.ok c, fun c => Except.ok c⟩

/-- A stage function preserves the corpus when, on success, its output is its
input passage list — true of `FAISS.from_texts` (the store holds exactly the
given texts) and of `RetrievalQA` over that store. -/
def preservesCorpus (f : List String → Except String (List String)) : Prop :=
  ∀ cs vs, f cs = Except.ok vs → vs = cs

/-- Does a match of either regex alternative start at some position strictly
inside `a` when the scanner input is `a ++ r`?  `noMarkerStart a r = true`
says no: the scanner passes over all of `a` unchanged. -/
def noMarkerStart : List Char → List Char → Bool
  | [], _ => true
  | c :: cs, r =>
    (!ciPrefixL ctxPat (c :: (cs ++ r))) && (!ciPrefixL ansPat (c :: (cs ++ r)))
      && noMarkerStart cs r

/-! ### Helper lemmas -/

theorem length_dropWhileLe (p : Char → Bool) :
    ∀ l : List Char, (l.dropWhile p).length ≤ l.length := by
  intro l
  induction l with
  | nil => simp
  | cons a as ih =>
    rw [List.dropWhile_cons]
    by_cases ha : p a = true
    · rw [if_pos ha]
      exact le_trans ih (by simp)
    · rw [if_neg ha]

theorem reSub_step_len1 (c : Char) (cs : List Char) :
    (List.dropWhile (fun x => x != '\n') (List.drop 8 (c :: cs))).length ≤ cs.length := by
  calc (List.dropWhile (fun x => x != '\n') (List.drop 8 (c :: cs))).length
      ≤ (List.drop 8 (c :: cs)).length := length_dropWhileLe _ _
    _ = (c :: cs).length - 8 := List.length_drop 8 _
    _ ≤ cs.length := by simp only [List.length_cons]; omega

theorem reSub_step_len2 (c : Char) (cs : List Char) :
    (List.drop 7 (c :: cs)).length ≤ cs.length := by
  rw [List.length_drop]
  simp only [List.length_cons]
  omega

theorem reSubFuel_stable :
    ∀ (n m : Nat) (s : List Char), s.length ≤ n → s.length ≤ m →
      reSubFuel n s = reSubFuel m s := by
  intro n
  induction n with
  | zero =>
    intro m s hn hm
    have hs : s = [] := by
      cases s with
      | nil => rfl
      | cons c cs => simp at hn
    subst hs
    cases m <;> rfl
  | succ n ih =>
    intro m s hn hm
    cases s with
    | nil => cases m <;> rfl
    | cons c cs =>
      cases m with
      | zero => simp at hm
      | succ m =>
        have hcs : cs.length ≤ n := by simp at hn; omega
        have hcs' : cs.length ≤ m := by simp at hm; omega
        simp only [reSubFuel]
        by_cases h1 : ciPrefixL ctxPat (c :: cs) = true
        · rw [if_pos h1, if_pos h1]
          exact ih m _ (le_trans (reSub_step_len1 c cs) hcs)
            (le_trans (reSub_step_len1 c cs) hcs')
        · rw [if_neg h1, if_neg h1]
          by_cases h2 : ciPrefixL ansPat (c :: cs) = true
          · rw [if_pos h2, if_pos h2]
            exact ih m _ (le_trans (reSub_step_len2 c cs) hcs)
              (le_trans (reSub_step_len2 c cs) hcs')
          · rw [if_neg h2, if_neg h2, ih m cs hcs hcs']

theorem reSubAux_nil : reSubAux [] = [] := rfl

theorem reSubAux_cons (c : Char) (cs : List Char) :
    reSubAux (c :: cs) =
      if ciPrefixL ctxPat (c :: cs) then
        reSubAux (List.dropWhile (fun x => x != '\n') (List.drop 8 (c :: cs)))
      else if ciPrefixL ansPat (c :: cs) then
        reSubAux (List.drop 7 (c :: cs))
      else c :: reSubAux cs := by
  show reSubFuel (c :: cs).length (c :: cs) = _
  simp only [List.length_cons, reSubFuel]
  by_cases h1 : ciPrefixL ctxPat (c :: cs) = true
  · rw [if_pos h1, if_pos h1]
    exact reSubFuel_stable _ _ _ (reSub_step_len1 c cs) le_rfl
  · rw [if_neg h1, if_neg h1]
    by_cases h2 : ciPrefixL ansPat (c :: cs) = true
    · rw [if_pos h2, if_pos h2]
      exact reSubFuel_stable _ _ _ (reSub_step_len2 c cs) le_rfl
    · rw [if_neg h2, if_neg h2]
      rfl

theorem reSubAux_skip (a r : List Char) (h : noMarkerStart a r = true) :
    reSubAux (a ++ r) = a ++ reSubAux r := by
  induction a with
  | nil => simp
  | cons c cs ih =>
    simp only [noMarkerStart, Bool.and_eq_true, Bool.not_eq_true'] at h
    obtain ⟨⟨h1, h2⟩, h3⟩ := h
    rw [List.cons_append, reSubAux_cons, if_neg (by simp [h1]), if_neg (by simp [h2]),
      ih h3, List.cons_append]

theorem reSubAux_id (l : List Char)
    (h1 : containsCIL ctxPat l = false) (h2 : containsCIL ansPat l = false) :
    reSubAux l = l := by
  induction l with
  | nil => rfl
  | cons c cs ih =>
    simp only [containsCIL, Bool.or_eq_false_iff] at h1 h2
    rw [reSubAux_cons, if_neg (by simp [h1.1]), if_neg (by simp [h2.1]), ih h1.2 h2.2]

theorem chunkFuel_stable :
    ∀ (n m : Nat) (t : List Char), t.length ≤ n → t.length ≤ m →
      chunkFuel n t = chunkFuel m t := by
  intro n
  induction n with
  | zero =>
    intro m t hn hm
    have h : t.length ≤ 500 := by omega
    cases m with
    | zero => rfl
    | succ m => simp [chunkFuel, h]
  | succ n ih =>
    intro m t hn hm
    cases m with
    | zero =>
      have h : t.length ≤ 500 := by omega
      simp [chunkFuel, h]
    | succ m =>
      simp only [chunkFuel]
      by_cases h : t.length ≤ 500
      · simp [h]
      · simp only [h, if_false]
        have hd : (t.drop 400).length = t.length - 400 := List.length_drop 400 t
        rw [ih m (t.drop 400) (by omega) (by omega)]

theorem chunkWindow_small (t : List Char) (h : t.length ≤ 500) : chunkWindow t = [t] := by
  show chunkFuel t.length t = [t]
  cases hl : t.length with
  | zero => rfl
  | succ k =>
    simp only [chunkFuel]
    rw [if_pos (by omega)]

theorem chunkWindow_big (t : List Char) (h : 500 < t.length) :
    chunkWindow t = t.take 500 :: chunkWindow (t.drop 400) := by
  show chunkFuel t.length t = _
  cases hl : t.length with
  | zero => omega
  | succ k =>
    simp only [chunkFuel]
    rw [if_neg (by omega)]
    have hd : (t.drop 400).length = t.length - 400 := List.length_drop 400 t
    rw [chunkFuel_stable k ((t.drop 400).length) (t.drop 400) (by omega) le_rfl]
    rfl

theorem chunkWindow_ne_nil (t : List Char) : chunkWindow t ≠ [] := by
  by_cases h : t.length ≤ 500
  · rw [chunkWindow_small t h]; simp
  · rw [chunkWindow_big t (by omega)]; simp

theorem dropOv_cons (x : List Char) (xs : List (List Char)) :
    dropOv (x :: xs) = x.drop 100 ++ dropOv xs := rfl

theorem dropOv_chunkWindow (u : List Char) :
    dropOv (chunkWindow u) = (reassembleL (chunkWindow u)).drop 100 := by
  by_cases h : u.length ≤ 500
  · rw [chunkWindow_small u h]
    show u.drop 100 ++ dropOv [] = (u ++ dropOv []).drop 100
    simp [dropOv]
  · rw [chunkWindow_big u (by omega)]
    show (u.take 500).drop 100 ++ dropOv (chunkWindow (u.drop 400))
        = ((u.take 500) ++ dropOv (chunkWindow (u.drop 400))).drop 100
    rw [List.drop_append_eq_append_drop]
    have hlen : (u.take 500).length = 500 := by
      rw [List.length_take]; omega
    rw [hlen]
    simp

theorem chunk_roundtrip (t : List Char) : reassembleL (chunkWindow t) = t := by
  by_cases h : t.length ≤ 500
  · rw [chunkWindow_small t h]
    show t ++ dropOv [] = t
    simp [dropOv]
  · rw [chunkWindow_big t (by omega)]
    show t.take 500 ++ dropOv (chunkWindow (t.drop 400)) = t
    rw [dropOv_chunkWindow, chunk_roundtrip (t.drop 400), List.drop_drop,
      List.take_append_drop]
termination_by t.length
decreasing_by
  rw [List.length_drop]
  omega

theorem mem_dropWhile_of (p : Char → Bool) {c : Char} :
    ∀ {l : List Char}, p c = false → c ∈ l → c ∈ l.dropWhile p := by
  intro l
  induction l with
  | nil => intro _ h; simp at h
  | cons a as ih =>
    intro hc h
    rw [List.dropWhile_cons]
    by_cases ha : p a = true
    · rw [if_pos ha]
      have hca : c ∈ as := by
        rcases List.mem_cons.mp h with h' | h'
        · subst h'; rw [hc] at ha; exact absurd ha (by simp)
        · exact h'
      exact ih hc hca
    · rw [if_neg ha]
      exact h

theorem dropWhile_head_false (p : Char → Bool) :
    ∀ {l : List Char} {c : Char} {r : List Char},
      List.dropWhile p l = c :: r → p c = false := by
  intro l
  induction l with
  | nil => intro c r h; simp at h
  | cons a as ih =>
    intro c r h
    rw [List.dropWhile_cons] at h
    by_cases ha : p a = true
    · rw [if_pos ha] at h
      exact ih h
    · rw [if_neg ha] at h
      cases h
      simpa using ha

theorem mem_pyStripL {c : Char} {l : List Char} (hc : isWs c = false) (h : c ∈ l) :
    c ∈ pyStripL l := by
  unfold pyStripL
  rw [List.mem_reverse]
  exact mem_dropWhile_of isWs hc (List.mem_reverse.mpr (mem_dropWhile_of isWs hc h))

theorem pyStripL_has_nonWs {x : List Char} (h : pyStripL x ≠ []) :
    ∃ c ∈ pyStripL x, isWs c = false := by
  cases hd : List.dropWhile isWs x with
  | nil =>
    exfalso
    apply h
    unfold pyStripL
    rw [hd]
    rfl
  | cons c cs =>
    have hc : isWs c = false := dropWhile_head_false isWs hd
    refine ⟨c, ?_, hc⟩
    unfold pyStripL
    rw [List.mem_reverse]
    apply mem_dropWhile_of isWs hc
    rw [List.mem_reverse, hd]
    simp

theorem pyStripL_length_le (l : List Char) : (pyStripL l).length ≤ l.length := by
  unfold pyStripL
  calc (((l.dropWhile isWs).reverse.dropWhile isWs).reverse).length
      = ((l.dropWhile isWs).reverse.dropWhile isWs).length := List.length_reverse _
    _ ≤ (l.dropWhile isWs).reverse.length := length_dropWhileLe _ _
    _ = (l.dropWhile isWs).length := List.length_reverse _
    _ ≤ l.length := length_dropWhileLe _ _

theorem ciPrefixL_cons_eq (p : Char) (ps : List Char) (c : Char) (cs : List Char) :
    ciPrefixL (p :: ps) (c :: cs) = ((c.toLower == p) && ciPrefixL ps cs) := rfl

theorem ctxPat_cons : ctxPat = 'c' :: 'o' :: 'n' :: 't' :: 'e' :: 'x' :: 't' :: ':' :: [] := rfl

theorem ansPat_cons : ansPat = 'a' :: 'n' :: 's' :: 'w' :: 'e' :: 'r' :: ':' :: [] := rfl

theorem ciPrefixL_ctx_at_A (rest : List Char) : ciPrefixL ctxPat ('A' :: rest) = false := by
  rw [ctxPat_cons, ciPrefixL_cons_eq, show ('A'.toLower == 'c') = false from by decide]
  rfl

theorem ciPrefixL_ctx_at_nl (rest : List Char) : ciPrefixL ctxPat ('\n' :: rest) = false := by
  rw [ctxPat_cons, ciPrefixL_cons_eq, show ('\n'.toLower == 'c') = false from by decide]
  rfl

theorem ciPrefixL_ans_at_nl (rest : List Char) : ciPrefixL ansPat ('\n' :: rest) = false := by
  rw [ansPat_cons, ciPrefixL_cons_eq, show ('\n'.toLower == 'a') = false from by decide]
  rfl

theorem ciPrefixL_ans_self (s : List Char) :
    ciPrefixL ansPat ('A' :: 'n' :: 's' :: 'w' :: 'e' :: 'r' :: ':' :: s) = true := by
  rw [ansPat_cons]
  simp only [ciPrefixL_cons_eq, show ciPrefixL [] s = true from rfl]
  decide

theorem ciPrefixL_ctx_self (s : List Char) :
    ciPrefixL ctxPat ('C' :: 'o' :: 'n' :: 't' :: 'e' :: 'x' :: 't' :: ':' :: s) = true := by
  rw [ctxPat_cons]
  simp only [ciPrefixL_cons_eq, show ciPrefixL [] s = true from rfl]
  decide

theorem dropWhile_ne_nl {r : List Char} :
    ∀ {l : List Char}, l.all (fun x => x != '\n') = true →
      List.dropWhile (fun x => x != '\n') (l ++ '\n' :: r) = '\n' :: r := by
  intro l
  induction l with
  | nil =>
    intro _
    rw [List.nil_append, List.dropWhile_cons, if_neg (by simp)]
  | cons a as ih =>
    intro h
    rw [List.all_cons, Bool.and_eq_true] at h
    rw [List.cons_append, List.dropWhile_cons, if_pos h.1]
    exact ih h.2

theorem startsWithL_ctx (s : List Char) :
    startsWithL ("Context:".data) ('C' :: 'o' :: 'n' :: 't' :: 'e' :: 'x' :: 't' :: ':' :: s)
      = true := by
  show startsWithL ('C' :: 'o' :: 'n' :: 't' :: 'e' :: 'x' :: 't' :: ':' :: []) _ = true
  simp only [startsWithL, show startsWithL [] s = true from rfl]
  decide

theorem mem_reassembleL {c : Char} :
    ∀ {cs : List (List Char)}, c ∈ reassembleL cs → ∃ ch ∈ cs, c ∈ ch := by
  intro cs
  cases cs with
  | nil => intro h; simp [reassembleL] at h
  | cons ch rest =>
    intro h
    rcases List.mem_append.mp h with h' | h'
    · exact ⟨ch, by simp, h'⟩
    · clear h
      induction rest with
      | nil => simp [dropOv] at h'
      | cons x xs ih =>
        rw [dropOv_cons] at h'
        rcases List.mem_append.mp h' with h'' | h''
        · exact ⟨x, by simp, List.mem_of_mem_drop h''⟩
        · rcases ih h'' with ⟨y, hy, hcy⟩
          rcases List.mem_cons.mp hy with h3 | h3
          · exact ⟨y, by simp [h3], hcy⟩
          · exact ⟨y, by simp [List.mem_cons.mpr (Or.inr h3)], hcy⟩

theorem ask_question_some_no_400 (c : Chain) (run : Chain → String → Except String String)
    (q s : String) : ask_question (some c) run q ≠ Except.error (400, s) := by
  show (match run c q with
    | Except.error e => Except.error (500, "Error: " ++ e)
    | Except.ok response => Except.ok (format_response q response))
      ≠ Except.error ((400 : Nat), s)
  cases hr : run c q with
  | error e =>
    intro hcontra
    simp only [Except.error.injEq, Prod.mk.injEq] at hcontra
    exact absurd hcontra.1 (by decide)
  | ok r => simp

theorem split_text_nonblank (text : String) (h : pyStrip text ≠ "") :
    split_text_into_chunks text ≠ []
      ∧ ∃ p ∈ split_text_into_chunks text, pyStrip p ≠ "" := by
  have ht : pyStripL text.data ≠ [] := by
    intro h0
    apply h
    show String.mk (pyStripL text.data) = ""
    rw [h0]
  constructor
  · intro hc
    exact chunkWindow_ne_nil (pyStripL text.data) (List.map_eq_nil_iff.mp hc)
  · obtain ⟨cnw, hmem, hws⟩ := pyStripL_has_nonWs ht
    have hcov : cnw ∈ reassembleL (chunkWindow (pyStripL text.data)) := by
      rw [chunk_roundtrip]
      exact hmem
    obtain ⟨ch, hch, hcin⟩ := mem_reassembleL hcov
    refine ⟨String.mk ch, List.mem_map.mpr ⟨ch, hch, rfl⟩, ?_⟩
    intro h0
    have hmm : cnw ∈ pyStripL ch := mem_pyStripL hws hcin
    have h1 : pyStripL ch = [] := congrArg String.data h0
    rw [h1] at hmm
    simp at hmm

theorem extractLoop_error (e fn : String) (post : List UpFile) :
    ∀ (pre : List UpFile) (text : String) (status : List String),
      (∀ g ∈ pre, ∃ t, g.extracted = Except.ok t) →
      extractLoop (pre ++ ⟨fn, Except.error e⟩ :: post) text status
        = Except.error (e ++ "\nStatus: "
            ++ lastD (status ++ pre.map (fun g => "Processed file: " ++ g.filename))) := by
  intro pre
  induction pre with
  | nil =>
    intro text status h
    simp [extractLoop]
  | cons g gs ih =>
    intro text status h
    obtain ⟨t, ht⟩ := h g (by simp)
    simp only [List.cons_append, extractLoop, ht, List.append_eq]
    rw [ih (text ++ t) (status ++ ["Processed file: " ++ g.filename])
      (fun x hx => h x (by simp [hx]))]
    simp [List.append_assoc]

/-! ### Claim theorems -/

/-- Claim C1: ingestion atomicity.  For a session that is already Ready
(chain `some c`), `process_documents` either leaves the chain exactly `some c`
— in particular whenever extraction, the blank-text check, chunking, the
vectorstore build, or the QA-chain initialization fails — and the old corpus
is then still answerable (`ask_question (some c)` can never report the 400
not-ingested error); or every stage succeeded and the freshly built chain is
installed together with the success status message. -/
theorem c1_ingestion_atomicity (st : Stages) (files : List UpFile) (url : Option UrlReq)
    (c : Chain) :
    ((process_documents st (some c) files url).2 = some c
      ∧ ∀ run q s, ask_question (some c) run q ≠ Except.error (400, s)) ∨
    (∃ text status chunks vs ch,
      extractPhase files url = Except.ok (text, status) ∧
      pyStrip text ≠ "" ∧
      st.chunk text = Except.ok chunks ∧
      st.vectorstore chunks = Except.ok vs ∧
      st.initQA vs = Except.ok ch ∧
      process_documents st (some c) files url =
        ("Documents processed successfully. Ask your questions!\nStatus: "
          ++ joinNl (status ++ ["Splitting text into chunks...", "Creating vectorstore...",
              "Initializing QA chain..."]), some ch)) := by
  cases hep : extractPhase files url with
  | error msg =>
    left
    refine ⟨?_, fun run q s => ask_question_some_no_400 c run q s⟩
    unfold process_documents
    rw [hep]
  | ok ts =>
    obtain ⟨text, status⟩ := ts
    by_cases hb : pyStrip text = ""
    · left
      refine ⟨?_, fun run q s => ask_question_some_no_400 c run q s⟩
      unfold process_documents
      rw [hep]
      simp only [if_pos hb]
    · cases hc : st.chunk text with
      | error e =>
        left
        refine ⟨?_, fun run q s => ask_question_some_no_400 c run q s⟩
        unfold process_documents
        rw [hep]
        simp only [if_neg hb, hc]
      | ok chunks =>
        cases hv : st.vectorstore chunks with
        | error e =>
          left
          refine ⟨?_, fun run q s => ask_question_some_no_400 c run q s⟩
          unfold process_documents
          rw [hep]
          simp only [if_neg hb, hc, hv]
        | ok vs =>
          cases hq : st.initQA vs with
          | error e =>
            left
            refine ⟨?_, fun run q s => ask_question_some_no_400 c run q s⟩
            unfold process_documents
            rw [hep]
            simp only [if_neg hb, hc, hv, hq]
          | ok ch =>
            right
            refine ⟨text, status, chunks, vs, ch, rfl, hb, hc, hv, hq, ?_⟩
            unfold process_documents
            rw [hep]
            simp only [if_neg hb, hc, hv, hq]
            congr 2
            simp [List.append_assoc]

/-- Claim C2: a question asked while the session is Empty (no chain; no
successful ingestion yet) fails with the 400 not-ingested error
`"Documents have not been processed yet."` and never yields a successful
answer, empty or otherwise. -/
theorem c2_empty_session_400 (run : Chain → String → Except String String) (q : String) :
    ask_question none run q
        = Except.error (400, "Documents have not been processed yet.")
      ∧ ∀ s, ask_question none run q ≠ Except.ok s := by
  refine ⟨rfl, ?_⟩
  intro s h
  simp [ask_question] at h

/-- Claim C8: a URL ingestion whose HTTP GET (issued with the fixed 10-second
timeout) returns a status code other than 200 aborts with exactly the
`Error: Failed to download (Status code)` line followed by the status trail,
and leaves the session's chain unchanged. -/
theorem c8_download_non200 (st : Stages) (old : Option Chain) (u : String) (code : Nat)
    (ext : Except String String) (h : code ≠ 200) :
    process_documents st old [] (some ⟨u, Except.ok (code, ext)⟩)
        = ("Error: Failed to download (Status " ++ toString code
            ++ ")\nStatus: " ++ ("Downloading from URL: " ++ u), old)
      ∧ downloadTimeoutSeconds = 10 := by
  refine ⟨?_, rfl⟩
  have hep : extractPhase [] (some ⟨u, Except.ok (code, ext)⟩)
      = Except.error ("Error: Failed to download (Status " ++ toString code
          ++ ")\nStatus: " ++ lastD ["Downloading from URL: " ++ u]) := by
    unfold extractPhase
    simp only [if_pos h]
  unfold process_documents
  rw [hep]
  rfl

/-- Witness for C8: a concrete 404 download. -/
theorem c8_witness :
    process_documents idStages (some ["old"]) [] (some ⟨"http://x/doc.pdf", Except.ok (404, Except.ok "ignored")⟩)
      = ("Error: Failed to download (Status 404)\nStatus: Downloading from URL: http://x/doc.pdf",
          some ["old"]) := by
  have h := (c8_download_non200 idStages (some ["old"]) "http://x/doc.pdf" 404
    (Except.ok "ignored") (by decide)).1
  rw [h]
  decide

/-- Claim C9 (implicit): a successful `ask_question` call returns not the bare
sanitized answer but the sanitized answer wrapped in literal HTML paragraph
tags. -/
theorem c9_response_wrapped (corpus : Chain) (run : Chain → String → Except String String)
    (q resp : String) (h : run corpus q = Except.ok resp) :
    ask_question (some corpus) run q
      = Except.ok ("<p>" ++ pyStrip (reSubCtxAns resp) ++ "</p>") := by
  show (match run corpus q with
    | Except.error e => Except.error (500, "Error: " ++ e)
    | Except.ok response => Except.ok (format_response q response))
      = Except.ok ("<p>" ++ pyStrip (reSubCtxAns resp) ++ "</p>")
  rw [h]
  rfl

/-- Witness for C9: a concrete successful generation. -/
theorem c9_witness :
    ask_question (some ["doc"]) (fun _ _ => Except.ok "Paris") "Q"
      = Except.ok "<p>Paris</p>" := by
  have h := c9_response_wrapped ["doc"] (fun _ _ => Except.ok "Paris") "Q" "Paris" rfl
  rw [h, show ("<p>" ++ pyStrip (reSubCtxAns "Paris") ++ "</p>") = "<p>Paris</p>" from by decide]

/-- Counterexample for C4: a two-document ingestion whose first document
extracts to plenty of non-blank text and whose second document is
unparseable.  The claim says the extraction error stays local and the
ingestion proceeds; the code instead aborts the whole ingestion at once,
returning the extraction error and leaving the old chain in place, even
though the aggregate extracted text is non-blank. -/
theorem c4_counterexample :
    process_documents idStages (some ["old passage"])
        [⟨"good.pdf", Except.ok "Hello world, plenty of text."⟩,
         ⟨"bad.pdf", Except.error "Error reading PDF: bad bytes"⟩] none
      = ("Error reading PDF: bad bytes\nStatus: Processed file: good.pdf",
          some ["old passage"])
    ∧ pyStrip "Hello world, plenty of text." ≠ "" := by
  refine ⟨?_, by decide⟩
  rfl

/-- Claim C4 as amended: an extraction error on any document aborts the whole
ingestion immediately — even when the other documents extract to non-blank
text — returning the extraction error message with the last status line, and
leaving the session's chain unchanged. -/
theorem c4_amended (st : Stages) (c : Chain) (pre : List UpFile) (fn e : String)
    (post : List UpFile) (h : ∀ g ∈ pre, ∃ t, g.extracted = Except.ok t) :
    process_documents st (some c) (pre ++ ⟨fn, Except.error e⟩ :: post) none
      = (e ++ "\nStatus: " ++ lastD ("Processing uploaded files..."
          :: pre.map (fun g => "Processed file: " ++ g.filename)), some c) := by
  have hform : extractPhase (pre ++ ⟨fn, Except.error e⟩ :: post) none
      = extractLoop (pre ++ ⟨fn, Except.error e⟩ :: post) ""
          ["Processing uploaded files..."] := by
    cases pre with
    | nil => rfl
    | cons g gs => rfl
  have hep := extractLoop_error e fn post pre "" ["Processing uploaded files..."] h
  unfold process_documents
  rw [hform, hep]
  rfl

/-- Witness for the amended C4: one good document followed by one unparseable
document. -/
theorem c4_amended_witness :
    process_documents idStages (some ["p"])
        ([⟨"a.pdf", Except.ok "Some text"⟩] ++ ⟨"b.pdf", Except.error "Error reading PDF: oops"⟩ :: [])
        none
      = ("Error reading PDF: oops\nStatus: Processed file: a.pdf", some ["p"]) := by
  have h := c4_amended idStages ["p"] [⟨"a.pdf", Except.ok "Some text"⟩] "b.pdf"
    "Error reading PDF: oops" []
    (by
      intro g hg
      simp only [List.mem_singleton] at hg
      rw [hg]
      exact ⟨"Some text", rfl⟩)
  rw [h]
  decide

/-- Claim C3: empty-corpus invariant.  For stages whose splitter is the
Chunker and whose vectorstore/QA stages preserve the corpus on success:
(1) an ingestion whose extracted aggregate text is blank fails with the
no-text error and leaves the chain unchanged; (2) after any
`process_documents` call the session either still holds its previous chain
(possibly absent, i.e. Empty) or holds a non-empty corpus with at least one
non-blank passage. -/
theorem c3_empty_corpus_invariant (st : Stages)
    (hchunk : st.chunk = fun t => Except.ok (split_text_into_chunks t))
    (hvs : preservesCorpus st.vectorstore) (hqa : preservesCorpus st.initQA)
    (old : Option Chain) (files : List UpFile) (url : Option UrlReq) :
    (∀ text status, extractPhase files url = Except.ok (text, status) → pyStrip text = "" →
      process_documents st old files url
        = ("Error: No text found in the documents.\nStatus: " ++ joinNl status, old))
    ∧ ((process_documents st old files url).2 = old ∨
       ∃ corpus, (process_documents st old files url).2 = some corpus ∧ corpus ≠ []
         ∧ ∃ p ∈ corpus, pyStrip p ≠ "") := by
  constructor
  · intro text status hep hb
    unfold process_documents
    rw [hep]
    simp only [if_pos hb]
  · cases hep : extractPhase files url with
    | error msg =>
      left
      unfold process_documents
      rw [hep]
    | ok ts =>
      obtain ⟨text, status⟩ := ts
      by_cases hb : pyStrip text = ""
      · left
        unfold process_documents
        rw [hep]
        simp only [if_pos hb]
      · cases hv : st.vectorstore (split_text_into_chunks text) with
        | error e =>
          left
          unfold process_documents
          rw [hep]
          simp only [if_neg hb, hchunk, hv]
        | ok vs =>
          have hvs' : vs = split_text_into_chunks text := hvs _ _ hv
          cases hq : st.initQA vs with
          | error e =>
            left
            unfold process_documents
            rw [hep]
            simp only [if_neg hb, hchunk, hv, hq]
          | ok ch =>
            right
            have hch : ch = split_text_into_chunks text := by
              rw [hqa _ _ hq, hvs']
            refine ⟨ch, ?_, ?_, ?_⟩
            · unfold process_documents
              rw [hep]
              simp only [if_neg hb, hchunk, hv, hq]
            · rw [hch]
              exact (split_text_nonblank text hb).1
            · rw [hch]
              exact (split_text_nonblank text hb).2

/-- Witness for C3: identity stages, a previously Ready session, and one
whitespace-only document; the call reports the no-text error and keeps the
old chain. -/
theorem c3_witness :
    process_documents idStages (some ["kept"]) [⟨"blank.pdf", Except.ok "   "⟩] none
      = ("Error: No text found in the documents.\nStatus: "
          ++ joinNl ["Processing uploaded files...", "Processed file: blank.pdf"],
          some ["kept"]) := by
  have h := (c3_empty_corpus_invariant idStages rfl
      (fun cs vs hv => by cases hv; rfl) (fun cs vs hv => by cases hv; rfl)
      (some ["kept"]) [⟨"blank.pdf", Except.ok "   "⟩] none).1
    "   " ["Processing uploaded files...", "Processed file: blank.pdf"] rfl (by decide)
  rw [h]

/-- Claim C5: Chunker round-trip and edge case.  For non-empty input text the
chunk list is non-empty; concatenating the chunks after removing each later
chunk's 100-character overlapping prefix reconstructs the trimmed input text
(round-trip modulo trimming); and an input of at most 500 characters
(the chunk size) yields exactly one chunk equal to the trimmed input. -/
theorem c5_chunker_roundtrip (text : String) (h : text ≠ "") :
    split_text_into_chunks text ≠ []
    ∧ reassembleL ((split_text_into_chunks text).map String.data) = pyStripL text.data
    ∧ (text.length ≤ 500 → split_text_into_chunks text = [pyStrip text]) := by
  refine ⟨?_, ?_, ?_⟩
  · intro hc
    exact chunkWindow_ne_nil (pyStripL text.data) (List.map_eq_nil_iff.mp hc)
  · show reassembleL (((chunkWindow (pyStripL text.data)).map
        (fun l => String.mk l)).map String.data) = pyStripL text.data
    rw [List.map_map]
    rw [show (String.data ∘ fun l : List Char => String.mk l) = id from rfl, List.map_id]
    exact chunk_roundtrip (pyStripL text.data)
  · intro hlen
    have hl : (pyStripL text.data).length ≤ 500 :=
      le_trans (pyStripL_length_le text.data) hlen
    show ((chunkWindow (pyStripL text.data)).map (fun l => String.mk l)) = [pyStrip text]
    rw [chunkWindow_small _ hl]
    rfl

/-- Witness for C5: a short input is trimmed and returned as the single
chunk. -/
theorem c5_witness : split_text_into_chunks "  hello  " = ["hello"] := by
  have h := (c5_chunker_roundtrip "  hello  " (by decide)).2.2 (by decide)
  rw [h]
  decide

/-- Claim C6: the response sanitizer is total.  For every raw answer string
the embedded `format_response` is defined and always takes the success path
(wrapping the stripped text; the Python `except` fallback that would return
the raw text is unreachable because the fixed pattern set makes the
substitution total); the substitution uses exactly the fixed patterns
`Context:.*` and `Answer:`, so a raw answer containing neither marker is
passed through unchanged, while a literal `Answer:` marker is stripped. -/
theorem c6_sanitizer_total (q r s : String) :
    format_response q r = "<p>" ++ pyStrip (reSubCtxAns r) ++ "</p>"
    ∧ (containsCI r "context:" = false → containsCI r "answer:" = false →
        reSubCtxAns r = r)
    ∧ reSubCtxAns ("Answer:" ++ s) = reSubCtxAns s := by
  refine ⟨rfl, ?_, ?_⟩
  · intro h1 h2
    show String.mk (reSubAux r.data) = r
    rw [reSubAux_id r.data h1 h2]
  · show String.mk (reSubAux ('A' :: 'n' :: 's' :: 'w' :: 'e' :: 'r' :: ':' :: s.data))
        = String.mk (reSubAux s.data)
    congr 1
    rw [reSubAux_cons, if_neg (by simp [ciPrefixL_ctx_at_A]),
      if_pos (ciPrefixL_ans_self s.data)]
    rfl

/-- Witness for C6: a marker-free answer passes through the sanitizer
unchanged. -/
theorem c6_witness : reSubCtxAns "The capital is Paris." = "The capital is Paris." :=
  (c6_sanitizer_total "q" "The capital is Paris." "x").2.1 (by decide) (by decide)

/-- Counterexample for C7: the generation prompt built by the template has a
labeled `Context:` block, but the question is placed bare at the top of the
prompt — the claimed labeled Question block does not exist anywhere in the
produced prompt. -/
theorem c7_counterexample :
    custom_prompt "What is the capital of France?" "The capital of France is Paris."
      = "What is the capital of France?\n\nContext:\nThe capital of France is Paris.\n\nAnswer:"
    ∧ occursL ("Question".data)
        (custom_prompt "What is the capital of France?"
          "The capital of France is Paris.").data = false := by
  refine ⟨rfl, ?_⟩
  decide

/-- Claim C7 as amended: the prompt is produced by one deterministic fixed
template that places the question first — bare, with no label of its own —
followed by a labeled `Context:` block holding the passage text and a
trailing `Answer:` label; so the relative order of question and passage text
is fixed, and the passage text sits inside a delimited labeled section, but
there is no labeled Question block. -/
theorem c7_amended (q c : String) :
    custom_prompt q c = q ++ "\n\nContext:\n" ++ c ++ "\n\nAnswer:"
    ∧ ∃ rest : List Char, (custom_prompt q c).data = q.data ++ rest
        ∧ occursL ("Context:".data) rest = true := by
  refine ⟨rfl, "\n\nContext:\n".data ++ (c.data ++ "\n\nAnswer:".data), ?_, ?_⟩
  · show (q.data ++ "\n\nContext:\n".data) ++ c.data ++ "\n\nAnswer:".data
        = q.data ++ ("\n\nContext:\n".data ++ (c.data ++ "\n\nAnswer:".data))
    simp [List.append_assoc]
  · show occursL ("Context:".data)
        ('\n' :: '\n' :: 'C' :: 'o' :: 'n' :: 't' :: 'e' :: 'x' :: 't' :: ':' :: '\n'
          :: (c.data ++ "\n\nAnswer:".data)) = true
    simp only [occursL, startsWithL_ctx, Bool.or_eq_true]
    right
    right
    left
    rfl

/-- Claim C10: exact semantics of the artifact stripping.  A case-insensitive
`Context:` marker is removed together with the rest of its own line only (the
pattern does not cross the newline, which is kept, and later lines are
preserved up to their own artifact stripping), a case-insensitive `Answer:`
marker is removed by itself, and the result is then trimmed of leading and
trailing whitespace before wrapping.  The `noMarkerStart` hypotheses say the
displayed marker is the first match in the scanned text. -/
theorem c10_strip_semantics (a b c : String)
    (h1 : noMarkerStart a.data ("Context:".data ++ (b.data ++ '\n' :: c.data)) = true)
    (h2 : b.data.all (fun ch => ch != '\n') = true)
    (h3 : noMarkerStart a.data ("Answer:".data ++ c.data) = true) :
    reSubCtxAns (a ++ "Context:" ++ b ++ "\n" ++ c) = a ++ "\n" ++ reSubCtxAns c
    ∧ reSubCtxAns (a ++ "Answer:" ++ c) = a ++ reSubCtxAns c
    ∧ format_response "" (a ++ "Answer:" ++ c)
        = "<p>" ++ pyStrip (a ++ reSubCtxAns c) ++ "</p>" := by
  have hans : reSubCtxAns (a ++ "Answer:" ++ c) = a ++ reSubCtxAns c := by
    have e1 : (a ++ "Answer:" ++ c).data = a.data ++ ("Answer:".data ++ c.data) := by
      show (a.data ++ "Answer:".data) ++ c.data = a.data ++ ("Answer:".data ++ c.data)
      rw [List.append_assoc]
    have hd : reSubAux ((a ++ "Answer:" ++ c).data) = a.data ++ reSubAux c.data := by
      rw [e1, reSubAux_skip _ _ h3]
      congr 1
      show reSubAux ('A' :: 'n' :: 's' :: 'w' :: 'e' :: 'r' :: ':' :: c.data)
          = reSubAux c.data
      rw [reSubAux_cons, if_neg (by simp [ciPrefixL_ctx_at_A]),
        if_pos (ciPrefixL_ans_self c.data)]
      rfl
    show String.mk (reSubAux ((a ++ "Answer:" ++ c).data)) = a ++ reSubCtxAns c
    rw [hd]
    rfl
  refine ⟨?_, hans, ?_⟩
  · have e1 : (a ++ "Context:" ++ b ++ "\n" ++ c).data
        = a.data ++ ("Context:".data ++ (b.data ++ '\n' :: c.data)) := by
      show (((a.data ++ "Context:".data) ++ b.data) ++ "\n".data) ++ c.data
          = a.data ++ ("Context:".data ++ (b.data ++ '\n' :: c.data))
      simp [List.append_assoc]
    have hd : reSubAux ((a ++ "Context:" ++ b ++ "\n" ++ c).data)
        = a.data ++ ('\n' :: reSubAux c.data) := by
      rw [e1, reSubAux_skip _ _ h1]
      congr 1
      show reSubAux ('C' :: 'o' :: 'n' :: 't' :: 'e' :: 'x' :: 't' :: ':'
          :: (b.data ++ '\n' :: c.data)) = '\n' :: reSubAux c.data
      rw [reSubAux_cons, if_pos (ciPrefixL_ctx_self _)]
      rw [show List.drop 8 ('C' :: 'o' :: 'n' :: 't' :: 'e' :: 'x' :: 't' :: ':'
          :: (b.data ++ '\n' :: c.data)) = b.data ++ '\n' :: c.data from rfl]
      rw [dropWhile_ne_nl h2]
      rw [reSubAux_cons, if_neg (by simp [ciPrefixL_ctx_at_nl]),
        if_neg (by simp [ciPrefixL_ans_at_nl])]
    have e2 : (a ++ "\n" ++ reSubCtxAns c).data = a.data ++ ('\n' :: reSubAux c.data) := by
      show (a.data ++ "\n".data) ++ reSubAux c.data = a.data ++ ('\n' :: reSubAux c.data)
      simp [List.append_assoc]
    show String.mk (reSubAux ((a ++ "Context:" ++ b ++ "\n" ++ c).data))
        = a ++ "\n" ++ reSubCtxAns c
    rw [hd, ← e2]
  · show "<p>" ++ pyStrip (reSubCtxAns (a ++ "Answer:" ++ c)) ++ "</p>"
        = "<p>" ++ pyStrip (a ++ reSubCtxAns c) ++ "</p>"
    rw [hans]

/-- Witness for C10: a concrete echoed answer with both markers. -/
theorem c10_witness :
    reSubCtxAns ("Well, " ++ "Context:" ++ " the doc says things" ++ "\n" ++ "It is blue.")
      = "Well, " ++ "\n" ++ reSubCtxAns "It is blue." :=
  (c10_strip_semantics "Well, " " the doc says things" "It is blue."
    (by decide) (by decide) (by decide)).1

end App
